import Mathlib

/-!
Shallow embedding of `src/examples/custom_agent.py` (class `CustomAgent`).

Python dictionaries are modelled as insertion-ordered association lists
(`List (String × _)`): assignment to an existing key overwrites in place,
assignment to a fresh key appends, and iteration order is insertion order
(this matters for `max(d, key=d.get)`, which returns the first key attaining
the maximum).  Python floats are modelled as exact rationals `ℚ`.
Randomness (`random.random()`, `random.choice`, `random.uniform`) is made
explicit: each call site takes the drawn value as an argument.
File-system effects (`load_config` / `save_config`) are modelled by an
explicit `LoadOutcome` describing what the storage location held, and by
the record `save_config` builds.  An expression that can raise in Python is
modelled with `Except`/`Option`; a `try/except` block is modelled by the
fallback branch of the corresponding `match`.
-/

namespace CustomAgent

/-- Lookup in a Python dict modelled as an association list: `d.get(k)`. -/
def alLookup {α : Type} (k : String) : List (String × α) → Option α
  | [] => none
  | (k2, v) :: rest => if k2 = k then some v else alLookup k rest

/-- Assignment `d[k] = v` on a Python dict: overwrite in place if the key is
present, append otherwise. -/
def alInsert {α : Type} (k : String) (v : α) : List (String × α) → List (String × α)
  | [] => [(k, v)]
  | (k2, v2) :: rest => if k2 = k then (k, v) :: rest else (k2, v2) :: alInsert k v rest

/-- Iteration order of the keys of a Python dict: `list(d.keys())`. -/
def alKeys {α : Type} (l : List (String × α)) : List String := l.map Prod.fst

/-- Agent state: the mutable attributes set in `CustomAgent.__init__`
(lines 29-58).  `config_path` is carried by `LoadOutcome` instead of being
stored, since the embedding has no file system. -/
structure Agent where
  agent_id : String
  behaviors : List (String × ℚ)
  learning_rate : ℚ
  exploration_rate : ℚ
  experience : List (String × List (String × ℚ))
  current_state : Option String
  total_rewards : ℚ
deriving DecidableEq, Repr

/-- Attribute initialisation in `__init__` (lines 46-54), before the
`load_config()` call at line 58: empty experience, no current state, zero
total rewards. -/
def mkAgent (id : String) (behaviors : List (String × ℚ)) (lr er : ℚ) : Agent :=
  ⟨id, behaviors, lr, er, [], none, 0⟩

/-- Parsed JSON document as read by `load_config` (lines 65-70): each field
is accessed with `config.get(...)`, so each may be absent. -/
structure ConfigRecord where
  agent_id : Option String
  behaviors : Option (List (String × ℚ))
  experience : Option (List (String × List (String × ℚ)))
  total_rewards : Option ℚ
deriving DecidableEq, Repr

/-- What the storage location held when `load_config` ran: no file
(`os.path.exists` false, line 64), an I/O or parse failure (caught at
line 76), or a successfully parsed record. -/
inductive LoadOutcome
  | missing
  | failure
  | record (r : ConfigRecord)

/-- Method `load_config` (lines 60-79).  On a parsed record whose
`agent_id` equals the identity of the agent (line 67; a missing agent_id
key reads as `None`, which never equals a string), behaviors, experience
and total_rewards are overwritten with `config.get(key, current)`
(lines 68-70); otherwise, and on a missing file or any caught failure,
every attribute is kept. -/
def load_config (ag : Agent) : LoadOutcome → Agent
  | .missing => ag
  | .failure => ag
  | .record r =>
      if r.agent_id = some ag.agent_id then
        { ag with
          behaviors := r.behaviors.getD ag.behaviors
          experience := r.experience.getD ag.experience
          total_rewards := r.total_rewards.getD ag.total_rewards }
      else ag

/-- Record that the `config = { ... }` literal of `save_config`
(lines 88-94) builds for `json.dump`; the timestamp field is omitted as the
embedding has no clock.  Note: as written, the body of `save_config` also
contains the fragment `pub total_supply: u64,` followed by `}` at
lines 86-87, which is not Python — the module does not parse, so this
record is what the surviving lines 88-96 evidently intend to write. -/
def saveRecord (ag : Agent) : ConfigRecord :=
  ⟨some ag.agent_id, some ag.behaviors, some ag.experience, some ag.total_rewards⟩

/-- Fresh table row `{b: 0.0 for b in self.behaviors.keys()}`
(lines 108, 127). -/
def defaultRow (behaviors : List (String × ℚ)) : List (String × ℚ) :=
  behaviors.map (fun p => (p.1, 0))

/-- Method `set_state` (lines 101-111): store `str(state)` as the current
state (states are already strings here) and create a defaulted row when the
key is absent (lines 107-108). -/
def set_state (ag : Agent) (state : String) : Agent :=
  let ag2 := { ag with current_state := some state }
  if (alLookup state ag.experience).isNone then
    { ag2 with experience := alInsert state (defaultRow ag.behaviors) ag.experience }
  else ag2

/-- Python `random.choice(l)` with the drawn index made explicit; raises
`IndexError` on an empty sequence. -/
def randomChoice (l : List String) (pick : Nat) : Except String String :=
  match l with
  | [] => .error "IndexError: cannot choose from an empty sequence"
  | x :: _ => .ok (l.getD (pick % l.length) x)

/-- Scan of Python `max(d, key=d.get)` over the remaining entries, keeping
the current best `(k, v)`: a later entry replaces it only when strictly
greater, so the first key attaining the maximum wins. -/
def argmaxPair (k : String) (v : ℚ) : List (String × ℚ) → String × ℚ
  | [] => (k, v)
  | (k2, v2) :: rest => if v2 > v then argmaxPair k2 v2 rest else argmaxPair k v rest

/-- Python `max(d, key=d.get)` (line 130); raises `ValueError` on an empty
dict. -/
def maxByValue : List (String × ℚ) → Except String String
  | [] => .error "ValueError: max() arg is an empty sequence"
  | (k, v) :: rest => .ok (argmaxPair k v rest).1

/-- Row consulted by the exploit branch:
`self.experience.get(self.current_state, {b: 0.0 for b in self.behaviors.keys()})`
(line 129). -/
def rowOf (ag : Agent) (s : String) : List (String × ℚ) :=
  (alLookup s ag.experience).getD (defaultRow ag.behaviors)

/-- Method `choose_action` (lines 113-132): with no current state, a random
action (lines 119-121); else explore when `random.random() <
exploration_rate` (line 124), otherwise exploit with
`max(state_experience, key=state_experience.get)` (line 130).  `randVal` is
the `random.random()` draw and `pick` the `random.choice` index.  The
method has no `try/except`, so the errors of `random.choice` and `max` on
an empty action set propagate to the caller. -/
def choose_action (ag : Agent) (randVal : ℚ) (pick : Nat) : Except String String :=
  match ag.current_state with
  | none => randomChoice (alKeys ag.behaviors) pick
  | some s =>
      if randVal < ag.exploration_rate then
        randomChoice (alKeys ag.behaviors) pick
      else
        maxByValue (rowOf ag s)

/-- Method `perform_action` (lines 134-155): reward is
`self.behaviors.get(action, 0.0)` plus the `random.uniform(-0.1, 0.1)`
noise (`noise` argument here); nothing in the body can fail, and the
`except` clause would return `0.0` if it did. -/
def perform_action (ag : Agent) (action : String) (noise : ℚ) : ℚ :=
  (alLookup action ag.behaviors).getD 0 + noise

/-- Method `update_learning` (lines 156-180).  With no current state the
call is a logged no-op (lines 164-166).  Otherwise
`self.experience[self.current_state]` (line 169) raises `KeyError` when the
row is absent; the exception is caught at line 178 before any attribute was
mutated, so that case is also a no-op.  With a row present:
`new_value = current + learning_rate * (reward - current)` is written into
the row (lines 169-171), `behaviors[action] = behaviors.get(action, 0.0) +
learning_rate * reward` (line 174) and `total_rewards += reward`
(line 175). -/
def update_learning (ag : Agent) (action : String) (reward : ℚ) : Agent :=
  match ag.current_state with
  | none => ag
  | some s =>
      match alLookup s ag.experience with
      | none => ag
      | some row =>
          let current_value := (alLookup action row).getD 0
          let new_value := current_value + ag.learning_rate * (reward - current_value)
          { ag with
            experience := alInsert s (alInsert action new_value row) ag.experience
            behaviors := alInsert action
              ((alLookup action ag.behaviors).getD 0 + ag.learning_rate * reward) ag.behaviors
            total_rewards := ag.total_rewards + reward }

/-- Return value of `get_summary` (lines 213-227). -/
structure Summary where
  agent_id : String
  behaviors : List (String × ℚ)
  total_rewards : ℚ
  exploration_rate : ℚ
  learning_rate : ℚ
  experience_states : Nat
deriving DecidableEq, Repr

/-- Method `get_summary` (lines 213-227): a pure read of agent
attributes; `len(self.experience)` is the number of stored rows. -/
def get_summary (ag : Agent) : Summary :=
  ⟨ag.agent_id, ag.behaviors, ag.total_rewards, ag.exploration_rate,
    ag.learning_rate, ag.experience.length⟩

/-- One iteration of the `evolve` loop (lines 195-207): `set_state`, then
`choose_action` / `perform_action` / `update_learning`.  An exception from
`choose_action` escapes to the own handler of `evolve` (line 209), aborting the
loop after the `set_state`. -/
def evolveStep (ag : Agent) (state : String) (randVal : ℚ) (pick : Nat) (noise : ℚ) : Agent :=
  let ag1 := set_state ag state
  match choose_action ag1 randVal pick with
  | .error _ => ag1
  | .ok a => update_learning ag1 a (perform_action ag1 a noise)

/-- The state-mutating public operations: only `set_state` and
`update_learning` assign to the attributes of the agent (`choose_action`,
`perform_action`, `save_config` and `get_summary` only read them, and
`evolve` is a composition of the four cycle methods). -/
inductive Step : Agent → Agent → Prop
  | set (ag : Agent) (s : String) : Step ag (set_state ag s)
  | upd (ag : Agent) (a : String) (r : ℚ) : Step ag (update_learning ag a r)

/-- The mutating operations restricted to `update_learning` calls whose
action is already a key of `behaviors`. -/
inductive StepK : Agent → Agent → Prop
  | set (ag : Agent) (s : String) : StepK ag (set_state ag s)
  | upd (ag : Agent) (a : String) (r : ℚ) (h : (alLookup a ag.behaviors).isSome) :
      StepK ag (update_learning ag a r)

/-- Key-set invariant: the keys of `behaviors` are those of the initial
behavior mapping `b`, and every stored experience row has exactly those
keys. -/
def keysInv (b : List (String × ℚ)) (ag : Agent) : Prop :=
  alKeys ag.behaviors = alKeys b ∧
    ∀ s row, alLookup s ag.experience = some row → alKeys row = alKeys b

/-- Current-state invariant: whenever a current state is set, the
experience table holds a row for it. -/
def stateInv (ag : Agent) : Prop :=
  ∀ s, ag.current_state = some s → (alLookup s ag.experience).isSome

/-- Repeated `update_learning(a, r)` calls with a fixed action and
reward. -/
def iterUpd (ag : Agent) (a : String) (r : ℚ) : Nat → Agent
  | 0 => ag
  | n + 1 => update_learning (iterUpd ag a r n) a r

/-- Value stored for action `a` in the row for state `s`, read the way
line 169 reads it (`.get(action, 0.0)`, i.e. `0` when absent). -/
def valAt (ag : Agent) (s a : String) : ℚ :=
  (alLookup a ((alLookup s ag.experience).getD [])).getD 0

/-! Basic lemmas about the association-list dictionary model. -/

theorem alLookup_alInsert_self {α : Type} (k : String) (v : α) (l : List (String × α)) :
    alLookup k (alInsert k v l) = some v := by
  induction l with
  | nil => simp [alInsert, alLookup]
  | cons p rest ih =>
      obtain ⟨k2, v2⟩ := p
      by_cases h : k2 = k
      · simp [alInsert, alLookup, h]
      · simp [alInsert, alLookup, h, ih]

theorem alLookup_alInsert_ne {α : Type} (k k2 : String) (v : α) (l : List (String × α))
    (h : k2 ≠ k) : alLookup k (alInsert k2 v l) = alLookup k l := by
  induction l with
  | nil => simp [alInsert, alLookup, h]
  | cons p rest ih =>
      obtain ⟨k3, v3⟩ := p
      by_cases h3 : k3 = k2
      · subst h3
        simp [alInsert, alLookup, h]
      · by_cases h4 : k3 = k
        · simp [alInsert, alLookup, h3, h4, Ne.symm h]
        · simp [alInsert, alLookup, h3, h4, ih]

theorem alLookup_isSome_iff_mem {α : Type} (k : String) (l : List (String × α)) :
    (alLookup k l).isSome ↔ k ∈ alKeys l := by
  induction l with
  | nil => simp [alLookup, alKeys]
  | cons p rest ih =>
      obtain ⟨k2, v2⟩ := p
      by_cases h : k2 = k
      · simp [alLookup, alKeys, h]
      · simp [alLookup, alKeys, h, ih, Ne.symm h]

theorem alKeys_alInsert_of_isSome {α : Type} (k : String) (v : α) (l : List (String × α))
    (h : (alLookup k l).isSome) : alKeys (alInsert k v l) = alKeys l := by
  induction l with
  | nil => simp [alLookup] at h
  | cons p rest ih =>
      obtain ⟨k2, v2⟩ := p
      by_cases h2 : k2 = k
      · simp [alInsert, alKeys, h2]
      · simp [alLookup, h2] at h
        have h3 := ih h
        simp only [alKeys] at h3
        simp [alInsert, alKeys, h2, h3]

theorem alLookup_alInsert_isSome {α : Type} (k k2 : String) (v : α) (l : List (String × α))
    (h : (alLookup k l).isSome) : (alLookup k (alInsert k2 v l)).isSome := by
  by_cases h2 : k2 = k
  · subst h2; simp [alLookup_alInsert_self]
  · rw [alLookup_alInsert_ne k k2 v l h2]; exact h

theorem alKeys_defaultRow (b : List (String × ℚ)) : alKeys (defaultRow b) = alKeys b := by
  simp [defaultRow, alKeys]

/-! Structural lemmas about the operations. -/

theorem set_state_behaviors (ag : Agent) (s : String) :
    (set_state ag s).behaviors = ag.behaviors := by
  unfold set_state
  split <;> rfl

theorem set_state_current (ag : Agent) (s : String) :
    (set_state ag s).current_state = some s := by
  unfold set_state
  split <;> rfl

theorem set_state_row_self (ag : Agent) (s : String) :
    (alLookup s (set_state ag s).experience).isSome := by
  unfold set_state
  split
  · simpa using congrArg Option.isSome (alLookup_alInsert_self s (defaultRow ag.behaviors) ag.experience)
  · rename_i h
    rw [Option.isSome_iff_ne_none]
    intro hn
    exact h (by simp [hn])

theorem set_state_rows (ag : Agent) (s s2 : String) (row : List (String × ℚ))
    (h : alLookup s2 (set_state ag s).experience = some row) :
    alLookup s2 ag.experience = some row ∨ row = defaultRow ag.behaviors := by
  unfold set_state at h
  split at h
  · by_cases h2 : s = s2
    · subst h2
      rw [alLookup_alInsert_self] at h
      exact Or.inr (Option.some_injective _ h).symm
    · rw [alLookup_alInsert_ne s2 s _ _ h2] at h
      exact Or.inl h
  · exact Or.inl h

theorem set_state_row_isSome (ag : Agent) (s s2 : String)
    (h : (alLookup s2 ag.experience).isSome) :
    (alLookup s2 (set_state ag s).experience).isSome := by
  unfold set_state
  split
  · exact alLookup_alInsert_isSome s2 s _ _ h
  · exact h

theorem update_learning_current (ag : Agent) (a : String) (r : ℚ) :
    (update_learning ag a r).current_state = ag.current_state := by
  unfold update_learning
  split
  · rfl
  · split <;> rfl

theorem update_learning_rates (ag : Agent) (a : String) (r : ℚ) :
    (update_learning ag a r).learning_rate = ag.learning_rate ∧
      (update_learning ag a r).exploration_rate = ag.exploration_rate := by
  unfold update_learning
  split
  · exact ⟨rfl, rfl⟩
  · split <;> exact ⟨rfl, rfl⟩

theorem update_learning_row_isSome (ag : Agent) (a : String) (r : ℚ) (s2 : String)
    (h : (alLookup s2 ag.experience).isSome) :
    (alLookup s2 (update_learning ag a r).experience).isSome := by
  unfold update_learning
  split
  · exact h
  · split
    · exact h
    · exact alLookup_alInsert_isSome s2 _ _ _ h

theorem alLookup_alInsert_cases {α : Type} (k k2 : String) (v : α) (l : List (String × α))
    (w : α) (h : alLookup k (alInsert k2 v l) = some w) :
    w = v ∨ alLookup k l = some w := by
  by_cases h2 : k2 = k
  · subst h2
    rw [alLookup_alInsert_self] at h
    exact Or.inl (Option.some_injective _ h).symm
  · rw [alLookup_alInsert_ne k k2 v l h2] at h
    exact Or.inr h

theorem set_state_rates (ag : Agent) (s : String) :
    (set_state ag s).learning_rate = ag.learning_rate ∧
      (set_state ag s).exploration_rate = ag.exploration_rate := by
  unfold set_state
  split <;> exact ⟨rfl, rfl⟩

theorem load_config_current (ag : Agent) (o : LoadOutcome) :
    (load_config ag o).current_state = ag.current_state := by
  cases o with
  | missing => rfl
  | failure => rfl
  | record r =>
      by_cases h : r.agent_id = some ag.agent_id <;> simp [load_config, h]

theorem update_learning_eq_of_none (ag : Agent) (a : String) (r : ℚ)
    (hc : ag.current_state = none) : update_learning ag a r = ag := by
  simp only [update_learning, hc]

theorem update_learning_eq_of_no_row (ag : Agent) (a : String) (r : ℚ) (s : String)
    (hc : ag.current_state = some s) (hrow : alLookup s ag.experience = none) :
    update_learning ag a r = ag := by
  simp only [update_learning, hc, hrow]

theorem update_learning_eq_of_row (ag : Agent) (a : String) (r : ℚ) (s : String)
    (row : List (String × ℚ)) (hc : ag.current_state = some s)
    (hrow : alLookup s ag.experience = some row) :
    update_learning ag a r = { ag with
      experience := alInsert s
        (alInsert a ((alLookup a row).getD 0
          + ag.learning_rate * (r - (alLookup a row).getD 0)) row) ag.experience
      behaviors := alInsert a
        ((alLookup a ag.behaviors).getD 0 + ag.learning_rate * r) ag.behaviors
      total_rewards := ag.total_rewards + r } := by
  simp only [update_learning, hc, hrow]

/-! Preservation of the invariants by the mutating operations, and their
truth in every reachable state. -/

theorem stepK_keysInv {b : List (String × ℚ)} {ag ag2 : Agent}
    (h : keysInv b ag) (hs : StepK ag ag2) : keysInv b ag2 := by
  cases hs with
  | set s =>
      refine ⟨by rw [set_state_behaviors]; exact h.1, ?_⟩
      intro s2 row hrow
      rcases set_state_rows ag s s2 row hrow with h2 | h2
      · exact h.2 s2 row h2
      · rw [h2, alKeys_defaultRow]
        exact h.1
  | upd a r hknown =>
      cases hc : ag.current_state with
      | none => rw [update_learning_eq_of_none ag a r hc]; exact h
      | some s =>
          cases hrow : alLookup s ag.experience with
          | none => rw [update_learning_eq_of_no_row ag a r s hc hrow]; exact h
          | some row =>
              rw [update_learning_eq_of_row ag a r s row hc hrow]
              refine ⟨?_, ?_⟩
              · rw [alKeys_alInsert_of_isSome a _ _ hknown]
                exact h.1
              · intro s2 row2 h2
                rcases alLookup_alInsert_cases s2 s _ ag.experience row2 h2 with h3 | h3
                · have hkeys := h.2 s row hrow
                  have hmem : (alLookup a row).isSome := by
                    rw [alLookup_isSome_iff_mem, hkeys, ← h.1,
                      ← alLookup_isSome_iff_mem]
                    exact hknown
                  rw [h3, alKeys_alInsert_of_isSome a _ _ hmem]
                  exact hkeys
                · exact h.2 s2 row2 h3

theorem reachK_keysInv {id : String} {b : List (String × ℚ)} {lr er : ℚ} {ag : Agent}
    (h : Relation.ReflTransGen StepK (mkAgent id b lr er) ag) : keysInv b ag := by
  induction h with
  | refl =>
      refine ⟨rfl, ?_⟩
      intro s row h2
      simp [mkAgent, alLookup] at h2
  | tail _ hstep ih => exact stepK_keysInv ih hstep

theorem step_stateInv {ag ag2 : Agent} (h : stateInv ag) (hs : Step ag ag2) :
    stateInv ag2 := by
  cases hs with
  | set s =>
      intro s2 h2
      rw [set_state_current] at h2
      injection h2 with h3
      subst h3
      exact set_state_row_self ag s
  | upd a r =>
      intro s2 h2
      rw [update_learning_current] at h2
      exact update_learning_row_isSome ag a r s2 (h s2 h2)

theorem reach_stateInv {id : String} {b : List (String × ℚ)} {lr er : ℚ}
    {o : LoadOutcome} {ag : Agent}
    (h : Relation.ReflTransGen Step (load_config (mkAgent id b lr er) o) ag) :
    stateInv ag := by
  induction h with
  | refl =>
      intro s h2
      rw [load_config_current] at h2
      simp [mkAgent] at h2
  | tail _ hstep ih => exact step_stateInv ih hstep

/-! Lemmas about the scan of `max(d, key=d.get)`. -/

theorem argmaxPair_mem (k : String) (v : ℚ) (l : List (String × ℚ)) :
    argmaxPair k v l ∈ (k, v) :: l := by
  induction l generalizing k v with
  | nil => simp [argmaxPair]
  | cons p rest ih =>
      obtain ⟨k2, v2⟩ := p
      by_cases h : v2 > v
      · rw [show argmaxPair k v ((k2, v2) :: rest) = argmaxPair k2 v2 rest from by
          simp [argmaxPair, h]]
        exact List.mem_cons_of_mem _ (ih k2 v2)
      · rw [show argmaxPair k v ((k2, v2) :: rest) = argmaxPair k v rest from by
          simp [argmaxPair, h]]
        rcases List.mem_cons.mp (ih k v) with h2 | h2
        · exact List.mem_cons.mpr (Or.inl h2)
        · exact List.mem_cons_of_mem _ (List.mem_cons_of_mem _ h2)

theorem argmaxPair_le (k : String) (v : ℚ) (l : List (String × ℚ)) :
    ∀ q ∈ (k, v) :: l, q.2 ≤ (argmaxPair k v l).2 := by
  induction l generalizing k v with
  | nil =>
      intro q hq
      rcases List.mem_cons.mp hq with h2 | h2
      · rw [h2]; simp [argmaxPair]
      · simp at h2
  | cons p rest ih =>
      obtain ⟨k2, v2⟩ := p
      intro q hq
      by_cases h : v2 > v
      · rw [show argmaxPair k v ((k2, v2) :: rest) = argmaxPair k2 v2 rest from by
          simp [argmaxPair, h]]
        rcases List.mem_cons.mp hq with h2 | h2
        · rw [h2]
          have h3 := ih k2 v2 (k2, v2) (List.mem_cons_self _ _)
          exact le_trans (le_of_lt h) h3
        · exact ih k2 v2 q h2
      · rw [show argmaxPair k v ((k2, v2) :: rest) = argmaxPair k v rest from by
          simp [argmaxPair, h]]
        rcases List.mem_cons.mp hq with h2 | h2
        · exact ih k v q (List.mem_cons.mpr (Or.inl h2))
        · rcases List.mem_cons.mp h2 with h3 | h3
          · rw [h3]
            have h4 := ih k v (k, v) (List.mem_cons_self _ _)
            exact le_trans (not_lt.mp h) h4
          · exact ih k v q (List.mem_cons.mpr (Or.inr h3))

theorem argmaxPair_eq_of_unique (k : String) (v : ℚ) (l : List (String × ℚ))
    (a : String) (w : ℚ) (hmem : (a, w) ∈ (k, v) :: l)
    (hlt : ∀ q ∈ (k, v) :: l, q.1 ≠ a → q.2 < w) :
    (argmaxPair k v l).1 = a := by
  by_contra hne
  have h1 := argmaxPair_mem k v l
  have h2 := hlt _ h1 hne
  have h3 := argmaxPair_le k v l (a, w) hmem
  exact absurd h3 (not_le.mpr h2)

/-! Lemmas about iterated updates. -/

theorem valAt_update (ag : Agent) (s a : String) (r : ℚ)
    (hc : ag.current_state = some s) (hrow : (alLookup s ag.experience).isSome) :
    valAt (update_learning ag a r) s a
      = valAt ag s a + ag.learning_rate * (r - valAt ag s a) := by
  obtain ⟨row, hrow2⟩ := Option.isSome_iff_exists.mp hrow
  rw [update_learning_eq_of_row ag a r s row hc hrow2]
  simp [valAt, alLookup_alInsert_self, hrow2]

theorem iterUpd_current (ag : Agent) (a : String) (r : ℚ) (n : Nat) :
    (iterUpd ag a r n).current_state = ag.current_state := by
  induction n with
  | zero => rfl
  | succ n ih =>
      simp only [iterUpd]
      rw [update_learning_current, ih]

theorem iterUpd_lr (ag : Agent) (a : String) (r : ℚ) (n : Nat) :
    (iterUpd ag a r n).learning_rate = ag.learning_rate := by
  induction n with
  | zero => rfl
  | succ n ih =>
      simp only [iterUpd]
      rw [(update_learning_rates _ a r).1, ih]

theorem iterUpd_row (ag : Agent) (a : String) (r : ℚ) (s : String)
    (h : (alLookup s ag.experience).isSome) (n : Nat) :
    (alLookup s (iterUpd ag a r n).experience).isSome := by
  induction n with
  | zero => exact h
  | succ n ih => exact update_learning_row_isSome _ a r s ih

/-! Claim theorems. -/

/-- C1: the claim that no public operation ever raises fails on the code.
With an empty behaviors mapping and no current state, `choose_action`
evaluates `random.choice` over an empty action list (line 121), which
raises `IndexError`; the method has no exception handler, so the error
escapes to the caller (and `save_config` cannot execute at all, its body
holding a non-Python fragment at lines 86-87). -/
theorem choose_action_empty_behaviors_raises :
    choose_action (mkAgent "a1" [] (1/10) (1/5)) 0 0
      = .error "IndexError: cannot choose from an empty sequence" := rfl

/-- C2 counterexample: `update_learning` called with an action that is not
a key of `behaviors` adds that key (line 174 assigns
`behaviors[action]`), so the action-identifier set does not stay equal to
the construction-time key set. -/
theorem update_learning_adds_behavior_key :
    "b" ∈ alKeys (update_learning
        (set_state (mkAgent "a1" [("a", 1)] (1/10) 0) "s1") "b" 1).behaviors ∧
      "b" ∉ alKeys (mkAgent "a1" [("a", 1)] (1/10) 0).behaviors := by decide

/-- C2 (amended): over every sequence of mutating public operations in
which `update_learning` is only called with actions already in the
behaviors mapping, the key list of `behaviors` stays exactly the key list
of the initial behavior mapping. -/
theorem behaviors_keys_fixed_for_known_actions (id : String) (b : List (String × ℚ))
    (lr er : ℚ) (ag : Agent)
    (h : Relation.ReflTransGen StepK (mkAgent id b lr er) ag) :
    alKeys ag.behaviors = alKeys b :=
  (reachK_keysInv h).1

theorem behaviors_keys_fixed_for_known_actions_witness :
    alKeys (update_learning
        (set_state (mkAgent "a1" [("a", 1)] (1/10) 0) "s1") "a" 1).behaviors
      = alKeys [("a", (1 : ℚ))] :=
  behaviors_keys_fixed_for_known_actions "a1" [("a", 1)] (1/10) 0 _
    (Relation.ReflTransGen.tail
      (Relation.ReflTransGen.single (StepK.set (mkAgent "a1" [("a", 1)] (1/10) 0) "s1"))
      (StepK.upd (set_state (mkAgent "a1" [("a", 1)] (1/10) 0) "s1") "a" 1 (by decide)))

/-- C3: round-trip of the record that `save_config` evidently intends to
write (lines 88-96): loading it into a freshly constructed agent with the
same identity restores behaviors, experience and total rewards, while the
policy rates stay those given to the constructor.  As written, however,
`save_config` cannot run: its body contains a non-Python fragment at
lines 86-87, so no record is ever produced by the code. -/
theorem saveRecord_load_roundtrip (ag : Agent) (b : List (String × ℚ)) (lr er : ℚ) :
    (load_config (mkAgent ag.agent_id b lr er) (.record (saveRecord ag))).behaviors
        = ag.behaviors ∧
      (load_config (mkAgent ag.agent_id b lr er) (.record (saveRecord ag))).experience
        = ag.experience ∧
      (load_config (mkAgent ag.agent_id b lr er) (.record (saveRecord ag))).total_rewards
        = ag.total_rewards ∧
      (load_config (mkAgent ag.agent_id b lr er) (.record (saveRecord ag))).learning_rate
        = lr ∧
      (load_config (mkAgent ag.agent_id b lr er) (.record (saveRecord ag))).exploration_rate
        = er := by
  simp [load_config, saveRecord, mkAgent]

/-- C4 counterexample: after `set_state` on two states, an
`update_learning` call with an unknown action adds that action to
`behaviors` and to the current row only; the row of the other state keeps
its old keys, so it lacks an entry for a now-known action. -/
theorem stale_row_misses_new_action :
    "b" ∈ alKeys (update_learning (set_state
        (set_state (mkAgent "a1" [("a", 1)] (1/10) 0) "s1") "s2") "b" 1).behaviors ∧
      alLookup "s1" (update_learning (set_state
          (set_state (mkAgent "a1" [("a", 1)] (1/10) 0) "s1") "s2") "b" 1).experience
        = some [("a", 0)] ∧
      alLookup "b" [("a", (0 : ℚ))] = none := by decide

/-- C4 (amended): over every sequence of mutating public operations in
which `update_learning` is only called with actions already in the
behaviors mapping, every stored experience row has an entry for every
currently known action. -/
theorem rows_cover_known_actions (id : String) (b : List (String × ℚ)) (lr er : ℚ)
    (ag : Agent) (h : Relation.ReflTransGen StepK (mkAgent id b lr er) ag)
    (s : String) (row : List (String × ℚ)) (hrow : alLookup s ag.experience = some row)
    (a : String) (ha : a ∈ alKeys ag.behaviors) :
    (alLookup a row).isSome := by
  have hinv := reachK_keysInv h
  rw [alLookup_isSome_iff_mem, hinv.2 s row hrow, ← hinv.1]
  exact ha

theorem rows_cover_known_actions_witness :
    (alLookup "a" [("a", (0 : ℚ))]).isSome :=
  rows_cover_known_actions "a1" [("a", 1)] (1/10) 0 _
    (Relation.ReflTransGen.single (StepK.set (mkAgent "a1" [("a", 1)] (1/10) 0) "s1"))
    "s1" [("a", 0)] (by decide) "a" (by decide)

/-- C5: with a current state set and its row present, `update_learning`
writes `old + learning_rate * (reward - old)` into the row entry for the
action (old defaulting to 0 when absent), sets the behavior weight to
`behaviors.get(action, 0.0) + learning_rate * reward`, adds the reward to
the cumulative total, and in particular a single update from a fresh row
stores exactly `learning_rate * reward`. -/
theorem update_learning_spec (ag : Agent) (s a : String) (r : ℚ)
    (row : List (String × ℚ)) (hc : ag.current_state = some s)
    (hrow : alLookup s ag.experience = some row) :
    valAt (update_learning ag a r) s a
        = (alLookup a row).getD 0
          + ag.learning_rate * (r - (alLookup a row).getD 0) ∧
      alLookup a (update_learning ag a r).behaviors
        = some ((alLookup a ag.behaviors).getD 0 + ag.learning_rate * r) ∧
      (update_learning ag a r).total_rewards = ag.total_rewards + r ∧
      (alLookup a row = none →
        valAt (update_learning ag a r) s a = ag.learning_rate * r) := by
  rw [update_learning_eq_of_row ag a r s row hc hrow]
  refine ⟨?_, ?_, rfl, ?_⟩
  · simp [valAt, alLookup_alInsert_self, hrow]
  · simp [alLookup_alInsert_self]
  · intro hfresh
    simp [valAt, alLookup_alInsert_self, hrow, hfresh]

theorem update_learning_spec_witness :
    valAt (update_learning
        (set_state (mkAgent "a1" [("x", 2)] 1 0) "s1") "y" 3) "s1" "y" = 3 := by
  have h := update_learning_spec (set_state (mkAgent "a1" [("x", 2)] 1 0) "s1")
    "s1" "y" 3 [("x", 0)] (by decide) (by decide)
  have h2 := h.2.2.2 (by decide)
  have h3 : (set_state (mkAgent "a1" [("x", 2)] 1 0) "s1").learning_rate = 1 := by decide
  rw [h3, one_mul] at h2
  exact h2

/-- C6: with exploration_rate 0, a current state set, a nonnegative
`random.random()` draw and a nonempty row, `choose_action` exploits:
it returns an action whose stored value attains the maximum of the row,
and when one action strictly dominates every other it returns that
action. -/
theorem choose_action_exploit_max (ag : Agent) (s : String) (randVal : ℚ) (pick : Nat)
    (her : ag.exploration_rate = 0) (hs : ag.current_state = some s)
    (hr : 0 ≤ randVal) (hrow : rowOf ag s ≠ []) :
    (∃ p ∈ rowOf ag s, choose_action ag randVal pick = .ok p.1 ∧
        ∀ q ∈ rowOf ag s, q.2 ≤ p.2) ∧
      ∀ a w, (a, w) ∈ rowOf ag s →
        (∀ q ∈ rowOf ag s, q.1 ≠ a → q.2 < w) →
          choose_action ag randVal pick = .ok a := by
  have hnot : ¬ randVal < ag.exploration_rate := by
    rw [her]
    exact not_lt.mpr hr
  cases hl : rowOf ag s with
  | nil => exact absurd hl hrow
  | cons p rest =>
      obtain ⟨k, v⟩ := p
      have hch : choose_action ag randVal pick = .ok (argmaxPair k v rest).1 := by
        unfold choose_action
        simp only [hs]
        rw [if_neg hnot, hl]
        rfl
      constructor
      · exact ⟨argmaxPair k v rest, argmaxPair_mem k v rest, hch, argmaxPair_le k v rest⟩
      · intro a w hmem hlt
        rw [hch, argmaxPair_eq_of_unique k v rest a w hmem hlt]

theorem choose_action_exploit_max_witness :
    (∃ p ∈ rowOf (set_state (mkAgent "a1" [("a", 1), ("b", 2)] (1/10) 0) "s1") "s1",
        choose_action (set_state (mkAgent "a1" [("a", 1), ("b", 2)] (1/10) 0) "s1") 0 0
            = .ok p.1 ∧
          ∀ q ∈ rowOf (set_state (mkAgent "a1" [("a", 1), ("b", 2)] (1/10) 0) "s1") "s1",
            q.2 ≤ p.2) ∧
      ∀ a w,
        (a, w) ∈ rowOf (set_state (mkAgent "a1" [("a", 1), ("b", 2)] (1/10) 0) "s1") "s1" →
        (∀ q ∈ rowOf (set_state (mkAgent "a1" [("a", 1), ("b", 2)] (1/10) 0) "s1") "s1",
          q.1 ≠ a → q.2 < w) →
        choose_action (set_state (mkAgent "a1" [("a", 1), ("b", 2)] (1/10) 0) "s1") 0 0
          = .ok a :=
  choose_action_exploit_max (set_state (mkAgent "a1" [("a", 1), ("b", 2)] (1/10) 0) "s1")
    "s1" 0 0 (by decide) (by decide) (by decide) (by decide)

/-- C7: with learning_rate in (0, 1], a current state set and its row
present, each further `update_learning(a, r)` with a fixed reward moves
the stored value for `a` monotonically toward `r`: the next value lies
between the previous value and `r`. -/
theorem update_learning_monotone_toward (ag : Agent) (s a : String) (r : ℚ) (n : Nat)
    (h1 : 0 < ag.learning_rate) (h2 : ag.learning_rate ≤ 1)
    (hc : ag.current_state = some s) (hrow : (alLookup s ag.experience).isSome) :
    (valAt (iterUpd ag a r n) s a ≤ r →
        valAt (iterUpd ag a r n) s a ≤ valAt (iterUpd ag a r (n + 1)) s a ∧
          valAt (iterUpd ag a r (n + 1)) s a ≤ r) ∧
      (r ≤ valAt (iterUpd ag a r n) s a →
        valAt (iterUpd ag a r (n + 1)) s a ≤ valAt (iterUpd ag a r n) s a ∧
          r ≤ valAt (iterUpd ag a r (n + 1)) s a) := by
  have hcn : (iterUpd ag a r n).current_state = some s := by
    rw [iterUpd_current, hc]
  have hrn := iterUpd_row ag a r s hrow n
  have hstep : valAt (iterUpd ag a r (n + 1)) s a
      = valAt (iterUpd ag a r n) s a
        + ag.learning_rate * (r - valAt (iterUpd ag a r n) s a) := by
    have h3 := valAt_update (iterUpd ag a r n) s a r hcn hrn
    rw [iterUpd_lr] at h3
    exact h3
  rw [hstep]
  constructor
  · intro h
    constructor
    · nlinarith [mul_nonneg (le_of_lt h1) (sub_nonneg.mpr h)]
    · nlinarith [mul_nonneg (sub_nonneg.mpr h2) (sub_nonneg.mpr h)]
  · intro h
    constructor
    · nlinarith [mul_nonneg (le_of_lt h1) (sub_nonneg.mpr h)]
    · nlinarith [mul_nonneg (sub_nonneg.mpr h2) (sub_nonneg.mpr h)]

theorem update_learning_monotone_toward_witness :
    (valAt (iterUpd (set_state (mkAgent "a1" [("x", 2)] 1 0) "s1") "x" 2 0) "s1" "x"
          ≤ 2 →
        valAt (iterUpd (set_state (mkAgent "a1" [("x", 2)] 1 0) "s1") "x" 2 0) "s1" "x"
            ≤ valAt (iterUpd (set_state (mkAgent "a1" [("x", 2)] 1 0) "s1") "x" 2 (0 + 1))
                "s1" "x" ∧
          valAt (iterUpd (set_state (mkAgent "a1" [("x", 2)] 1 0) "s1") "x" 2 (0 + 1))
              "s1" "x" ≤ 2) ∧
      (2 ≤ valAt (iterUpd (set_state (mkAgent "a1" [("x", 2)] 1 0) "s1") "x" 2 0)
            "s1" "x" →
        valAt (iterUpd (set_state (mkAgent "a1" [("x", 2)] 1 0) "s1") "x" 2 (0 + 1))
            "s1" "x"
            ≤ valAt (iterUpd (set_state (mkAgent "a1" [("x", 2)] 1 0) "s1") "x" 2 0)
                "s1" "x" ∧
          2 ≤ valAt (iterUpd (set_state (mkAgent "a1" [("x", 2)] 1 0) "s1") "x" 2 (0 + 1))
                "s1" "x") :=
  update_learning_monotone_toward (set_state (mkAgent "a1" [("x", 2)] 1 0) "s1")
    "s1" "x" 2 0 (by decide) (by decide) (by decide) (by decide)

/-- C8: `load_config` touches only behaviors, experience and total
rewards, so after any load outcome the policy rates equal the values
given to the constructor. -/
theorem load_config_preserves_rates (id : String) (b : List (String × ℚ)) (lr er : ℚ)
    (o : LoadOutcome) :
    (load_config (mkAgent id b lr er) o).learning_rate = lr ∧
      (load_config (mkAgent id b lr er) o).exploration_rate = er := by
  cases o with
  | missing => exact ⟨rfl, rfl⟩
  | failure => exact ⟨rfl, rfl⟩
  | record r =>
      by_cases h : r.agent_id = some id <;> simp [load_config, mkAgent, h]

/-- C9: when the persisted record carries a different identity (or none),
`load_config` leaves a freshly constructed agent exactly at its
constructor defaults and does not fail. -/
theorem load_config_mismatch_keeps_defaults (id : String) (b : List (String × ℚ))
    (lr er : ℚ) (r : ConfigRecord) (h : r.agent_id ≠ some id) :
    load_config (mkAgent id b lr er) (.record r) = mkAgent id b lr er := by
  simp only [load_config]
  rw [if_neg (by simpa [mkAgent] using h)]

theorem load_config_mismatch_keeps_defaults_witness :
    load_config (mkAgent "a1" [("x", 1)] (1/10) (1/5))
        (.record ⟨some "zz", none, none, none⟩)
      = mkAgent "a1" [("x", 1)] (1/10) (1/5) :=
  load_config_mismatch_keeps_defaults "a1" [("x", 1)] (1/10) (1/5)
    ⟨some "zz", none, none, none⟩ (by decide)

/-- C10: in every state reachable by the mutating public operations from a
freshly constructed agent (any load outcome at construction), whenever a
current state is set the experience table holds a row for it, so the
lookup `experience[current_state]` at line 169 cannot fail for a state set
through `set_state`. -/
theorem reachable_current_state_has_row {id : String} {b : List (String × ℚ)}
    {lr er : ℚ} {o : LoadOutcome} {ag : Agent}
    (h : Relation.ReflTransGen Step (load_config (mkAgent id b lr er) o) ag)
    (s : String) (hs : ag.current_state = some s) :
    (alLookup s ag.experience).isSome :=
  reach_stateInv h s hs

theorem reachable_current_state_has_row_witness :
    (alLookup "s1" (set_state
        (load_config (mkAgent "a1" [("x", 1)] (1/10) (1/5)) .missing) "s1").experience).isSome :=
  reachable_current_state_has_row
    (Relation.ReflTransGen.single
      (Step.set (load_config (mkAgent "a1" [("x", 1)] (1/10) (1/5)) .missing) "s1"))
    "s1" (by decide)

end CustomAgent
